import Mathlib

/-!
Verification of the `Assignment_1/model.py` neural-network trainer.

Modelling conventions (shallow embedding of the numpy code):
* A numpy array is a `Mat`: a shape `(rows, cols)` together with a total entry
  function `ℕ → ℕ → ℝ`; entries outside the shape are junk and never relied on.
  Floating-point numbers are idealised as real numbers.
* One-dimensional numpy arrays produced by `sum(1)` are modelled as
  single-column matrices, so `reshape(-1, 1)` is the identity on them.
* `np.random.randn` / `np.random.shuffle` are modelled by oracle arguments
  (a function supplying the Gaussian draws, a function supplying the shuffled
  index order), so every definition is a deterministic function of its oracles.
* `np.inf` (the initial `prev_val_acc` of the training loop) is modelled by
  `(⊤ : EReal)`; all accuracies produced by `predict` are real numbers and are
  coerced into `EReal` for the convergence comparison, mirroring IEEE infinity
  arithmetic (`inf - x = inf`, `|inf| = inf`, `inf < 0.001` is false).
* Python dictionaries keyed by `w1..wL, b1..bL` (parameters) and
  `dA/dW/db` (gradients) are modelled as functions from the layer index;
  the parameter structure carries the field `L` modelling
  `int(len(parameters) / 2)`.
-/

noncomputable section

open scoped BigOperators

/-- A numpy 2-D array: a shape and a total entry function (entries outside the
shape are irrelevant junk). -/
structure Mat where
  rows : ℕ
  cols : ℕ
  entry : ℕ → ℕ → ℝ

/-- The all-zero matrix of a given shape (used as a junk default where numpy
would raise). -/
def zeroMat (r c : ℕ) : Mat := ⟨r, c, fun _ _ => 0⟩

/-- Translation of `np.dot(W, A)` for 2-D arrays: contraction over `W.cols`
(numpy additionally requires `W.cols = A.rows`, which holds at every call site). -/
def npDot (W A : Mat) : Mat :=
  ⟨W.rows, A.cols, fun i j => ∑ k ∈ Finset.range W.cols, W.entry i k * A.entry k j⟩

/-- Translation of `Z + b` where `b` has shape `(n, 1)`: the bias column broadcasts across the
batch (column) dimension. -/
def addBias (Z b : Mat) : Mat :=
  ⟨Z.rows, Z.cols, fun i j => Z.entry i j + b.entry i 0⟩

/-- Elementwise subtraction (`X - Y` on same-shape arrays). -/
def matSub (X Y : Mat) : Mat :=
  ⟨X.rows, X.cols, fun i j => X.entry i j - Y.entry i j⟩

/-- Elementwise (Hadamard) product (`X * Y` on same-shape arrays). -/
def matHad (X Y : Mat) : Mat :=
  ⟨X.rows, X.cols, fun i j => X.entry i j * Y.entry i j⟩

/-- Scalar multiple of an array. -/
def smulMat (c : ℝ) (X : Mat) : Mat :=
  ⟨X.rows, X.cols, fun i j => c * X.entry i j⟩

/-- Translation of `X.T`. -/
def matTranspose (X : Mat) : Mat :=
  ⟨X.cols, X.rows, fun i j => X.entry j i⟩

/-- Translation of `X.sum(1)`, the row sums; the resulting 1-D array of length `rows` is
modelled as a single column. -/
def rowSum (X : Mat) : Mat :=
  ⟨X.rows, 1, fun i _ => ∑ j ∈ Finset.range X.cols, X.entry i j⟩

/-- Translation of `v.reshape(-1, 1)` on a 1-D array (modelled as a column): the identity
re-packaging into an explicit column. -/
def npReshapeCol (v : Mat) : Mat :=
  ⟨v.rows, 1, fun i _ => v.entry i 0⟩

/-- Translation of `np.max(Z, axis=0)` at column `j`: the maximum of column `j` over the rows
in shape (numpy raises on an empty axis; we return the junk value `0` there). -/
def colMax (Z : Mat) (j : ℕ) : ℝ :=
  if h : (Finset.range Z.rows).Nonempty then
    (Finset.range Z.rows).sup' h (fun i => Z.entry i j)
  else 0

/-- The per-layer cache dictionary built by `linear_forward` /
`linear_activation_forward`: keys `A`, `W`, `b`, `Z` (the activation cache),
and the optional key `Y` attached in place by `L_model_backward`
(`caches[index]['Y'] = Y`); a forward pass leaves `Y` absent (`none`). -/
structure Cache where
  A : Mat
  W : Mat
  b : Mat
  Z : Mat
  Y : Option Mat

/-- Junk cache used where Python would raise `IndexError` on a missing list
element (never exercised by the theorems below). -/
def cacheDefault : Cache := ⟨zeroMat 0 0, zeroMat 0 0, zeroMat 0 0, zeroMat 0 0, none⟩

/-- Reading `cache['Y']` (Python raises `KeyError` when absent; we return a
junk zero matrix on that never-exercised path). -/
def cacheY (c : Cache) : Mat := c.Y.getD (zeroMat 0 0)

/-- Translation of `linear_forward(A, W, b)`: `Z = np.dot(W, A) + b` and the linear cache
`{A, W, b}` (the `Z`/`Y` slots are filled later; `linear_activation_forward`
stores the activation cache under key `Z`). -/
def linear_forward (A W b : Mat) : Mat × (Mat × Mat × Mat) :=
  (addBias (npDot W A) b, (A, W, b))

/-- Translation of `softmax(Z)`: subtract the per-column maximum, exponentiate, normalise each
column by its sum; returns the activation and the shifted `Z` as the
activation cache. -/
def softmax (Z : Mat) : Mat × Mat :=
  let Zs : Mat := ⟨Z.rows, Z.cols, fun i j => Z.entry i j - colMax Z j⟩
  (⟨Z.rows, Z.cols, fun i j =>
      Real.exp (Zs.entry i j) / ∑ k ∈ Finset.range Z.rows, Real.exp (Zs.entry k j)⟩,
   Zs)

/-- Translation of `relu(Z)`: the elementwise `x if x > 0 else 0`, with `Z` itself as the
activation cache. -/
def relu (Z : Mat) : Mat × Mat :=
  (⟨Z.rows, Z.cols, fun i j => if Z.entry i j > 0 then Z.entry i j else 0⟩, Z)

/-- Translation of `linear_activation_forward(A_prev, W, B, activation)`: the linear step
followed by the chosen activation; the joint cache stores `A, W, b` and the
activation cache under key `Z` (no `Y` yet). -/
def linear_activation_forward (A_prev W B : Mat) (activation : String) : Mat × Cache :=
  let zl := linear_forward A_prev W B
  let za := if activation = "relu" then relu zl.1 else softmax zl.1
  (za.1, ⟨A_prev, W, B, za.2, none⟩)

/-- The parameter dictionary `{w1..wL, b1..bL}`: layer-indexed weight and bias
arrays, together with `L` modelling the dictionary size
(`int(len(parameters) / 2)`; also the value of `self.n_layers`). -/
structure Params where
  L : ℕ
  w : ℕ → Mat
  b : ℕ → Mat

/-- The parameter dictionary built by `initialize_parameters(layer_dims)`:
for each layer `i ∈ [1, len)` (the loop `for i in range(1, len(layer_dims))`)
`w_i` has shape `(dims[i], dims[i-1])` with Gaussian draws (from the oracle
`randW`) scaled by `sqrt(2 / dims[i-1])`, and `b_i` has shape `(dims[i], 1)`
with draws from `randB`; keys outside the loop range stay absent (junk).
`L` is `self.n_layers = len(layer_dims) - 1`. -/
def initParams (randW : ℕ → ℕ → ℕ → ℝ) (randB : ℕ → ℕ → ℝ)
    (layer_dims : List ℕ) : Params :=
  { L := layer_dims.length - 1
    w := fun i =>
      if 1 ≤ i ∧ i < layer_dims.length then
        ⟨layer_dims.getD i 0, layer_dims.getD (i - 1) 0,
         fun r c => randW i r c * Real.sqrt (2 / (layer_dims.getD (i - 1) 0 : ℝ))⟩
      else zeroMat 0 0
    b := fun i =>
      if 1 ≤ i ∧ i < layer_dims.length then
        ⟨layer_dims.getD i 0, 1, fun r _ => randB i r⟩
      else zeroMat 0 0 }

/-- Translation of `initialize_parameters(layer_dims)` with its error behaviour made
explicit: the body contains no raise path at all — for
`len(layer_dims) < 2` the loop is simply empty and an empty dictionary is
returned — so the result is always `Except.ok`. -/
def initialize_parameters (randW : ℕ → ℕ → ℕ → ℝ) (randB : ℕ → ℕ → ℝ)
    (layer_dims : List ℕ) : Except String Params :=
  Except.ok (initParams randW randB layer_dims)

/-- Modelled from the spec: `initialize(layerDims)` as §4.1 and §7 of the
specification describe it — "fails only if `layerDims` has fewer than 2
elements (a single-layer network is invalid — must signal
`ConfigurationError`)".  The repository has no `ConfigurationError` anywhere;
this definition follows the spec words, for comparison with the code's
`initialize_parameters`. -/
def initializeSpec (randW : ℕ → ℕ → ℕ → ℝ) (randB : ℕ → ℕ → ℝ)
    (layer_dims : List ℕ) : Except String Params :=
  if layer_dims.length < 2 then Except.error "ConfigurationError"
  else Except.ok (initParams randW randB layer_dims)

/-- The body of the loop `for layer_index in range(1, n_layers)` of
`L_model_forward`: each index applies the ReLU-activated layer unit and
appends its cache. -/
def forwardLoop (p : Params) (A : Mat) : List ℕ → Mat × List Cache
  | [] => (A, [])
  | i :: rest =>
      let step := linear_activation_forward A (p.w i) (p.b i) "relu"
      let tail := forwardLoop p step.1 rest
      (tail.1, step.2 :: tail.2)

/-- Translation of `L_model_forward(X, parameters, use_batchnorm)`: the ReLU loop over layers
`1 .. n_layers - 1` followed by the softmax-activated output layer
`n_layers`; returns the last activation and the cache list.  The
`use_batchnorm` flag is received but never read by the body, exactly as in the
source. -/
def L_model_forward (nL : ℕ) (X : Mat) (p : Params) (use_batchnorm : Bool) :
    Mat × List Cache :=
  let loop := forwardLoop p X (List.range' 1 (nL - 1))
  let out := linear_activation_forward loop.1 (p.w nL) (p.b nL) "softmax"
  (out.1, loop.2 ++ [out.2])

/-- The elements of `np.log(AL[Y > 0])`: the boolean mask walks the array in
row-major order and keeps the logarithms of the entries of `AL` where the
corresponding entry of `Y` is positive. -/
def maskedLogs (AL Y : Mat) : List ℝ :=
  (List.range Y.rows).flatMap (fun i =>
    ((List.range Y.cols).filter (fun j => decide (0 < Y.entry i j))).map
      (fun j => Real.log (AL.entry i j)))

/-- Translation of `compute_cost(AL, Y)`:
`y_pred = np.log(AL[Y > 0])` (a 1-D array) is broadcast against the 2-D `Y`
(`y_pred * Y` multiplies entry `(i, j)` of `Y` by element `j` of `y_pred`,
which requires `len(y_pred) = Y.cols`), the products are summed, negated, and
scaled by `1 / AL.shape[1]`. -/
def compute_cost (AL Y : Mat) : ℝ :=
  let y_pred := maskedLogs AL Y ;
  -(∑ i ∈ Finset.range Y.rows, ∑ j ∈ Finset.range Y.cols,
      y_pred.getD j 0 * Y.entry i j) * (1 / (AL.cols : ℝ))

/-- Translation of `linear_backward(dZ, cache)`: `m = A.shape[1]`,
`dW = (1/m)·dZ·Aᵀ`, `db = (1/m)·dZ.sum(1)`, `dA_prev = Wᵀ·dZ`. -/
def linear_backward (dZ : Mat) (cache : Cache) : Mat × Mat × Mat :=
  let m : ℝ := (cache.A.cols : ℝ)
  (npDot (matTranspose cache.W) dZ,
   smulMat (1 / m) (npDot dZ (matTranspose cache.A)),
   smulMat (1 / m) (rowSum dZ))

/-- Translation of `relu_backward(dA, activation_cache)`: reads `Z` from the cache and
returns `dA * 1[Z > 0]` elementwise. -/
def relu_backward (dA : Mat) (activation_cache : Cache) : Mat :=
  let Z := activation_cache.Z
  let dZ : Mat := ⟨Z.rows, Z.cols, fun i j => if Z.entry i j > 0 then 1 else 0⟩
  matHad dA dZ

/-- Translation of `softmax_backward(dA, activation_cache)`: reads `Z` (the shifted
pre-activation stored by the forward pass) and the attached labels `Y` from
the cache, recomputes `A = softmax(Z)` and returns `A - Y`; the `dA` argument
is received but unused, as in the source. -/
def softmax_backward (dA : Mat) (activation_cache : Cache) : Mat :=
  let Z := activation_cache.Z
  let Y := cacheY activation_cache
  matSub (softmax Z).1 Y

/-- Translation of `linear_activation_backward(dA, cache, activation)`. -/
def linear_activation_backward (dA : Mat) (cache : Cache) (activation : String) :
    Mat × Mat × Mat :=
  let dZ := if activation = "relu" then relu_backward dA cache else softmax_backward dA cache
  linear_backward dZ cache

/-- The gradients dictionary `{dA*, dW*, db*}` keyed by layer index. -/
structure Grads where
  dA : ℕ → Mat
  dW : ℕ → Mat
  db : ℕ → Mat

/-- The empty gradients dictionary (missing keys hold junk). -/
def emptyGrads : Grads := ⟨fun _ => zeroMat 0 0, fun _ => zeroMat 0 0, fun _ => zeroMat 0 0⟩

/-- Translation of `grads[f'dA{k}'] = u; grads[f'dW{k}'] = v; grads[f'db{k}'] = w`. -/
def setGrad (g : Grads) (k : ℕ) (u v w : Mat) : Grads :=
  ⟨fun i => if i = k then u else g.dA i,
   fun i => if i = k then v else g.dW i,
   fun i => if i = k then w else g.db i⟩

/-- The loop `for i in range(1, index + 1)` of `L_model_backward`: walks the
remaining layers in reverse applying the ReLU backward unit, threading
`dA_prev` and filling the gradients dictionary at key `n_layers - i`. -/
def backLoop (nL : ℕ) (caches : List Cache) : List ℕ → Mat → Grads → Grads
  | [], _, g => g
  | i :: rest, dA, g =>
      let step := linear_activation_backward dA (caches.getD (nL - 1 - i) cacheDefault) "relu"
      backLoop nL caches rest step.1 (setGrad g (nL - i) step.1 step.2.1 step.2.2)

/-- Translation of `L_model_backward(AL, Y, caches)`: attaches `Y` to the last cache
(`caches[index]['Y'] = Y`), runs the softmax backward unit on it, then the
ReLU backward units on layers `n_layers - 1 .. 1` in reverse. -/
def L_model_backward (nL : ℕ) (AL Y : Mat) (caches : List Cache) : Grads :=
  let index := nL - 1
  let cache : Cache := { caches.getD index cacheDefault with Y := some Y }
  let step := linear_activation_backward AL cache "softmax"
  backLoop nL caches (List.range' 1 index) step.1
    (setGrad emptyGrads nL step.1 step.2.1 step.2.2)

/-- Translation of `update_parameters(parameters, grads, learning_rate)`:
`layers_dim = int(len(parameters) / 2)` (the field `L`); every layer
`1 .. layers_dim` gets `w -= lr·dW` and `b -= lr·db.reshape(-1, 1)`. -/
def update_parameters (p : Params) (grads : Grads) (learning_rate : ℝ) : Params :=
  { p with
    w := fun i => if 1 ≤ i ∧ i ≤ p.L then matSub (p.w i) (smulMat learning_rate (grads.dW i)) else p.w i
    b := fun i => if 1 ≤ i ∧ i ≤ p.L then
        matSub (p.b i) (smulMat learning_rate (npReshapeCol (grads.db i))) else p.b i }

/-- Translation of `np.argmax(M, axis=0)` at column `j`: the row index of the first maximal
entry of the column (numpy returns the first occurrence; the strict `>` in the
fold keeps the earliest maximum). -/
def argmaxCol (M : Mat) (j : ℕ) : ℕ :=
  (List.range M.rows).foldl (fun best i => if M.entry i j > M.entry best j then i else best) 0

/-- Translation of `predict(X, Y, parameters)`: runs the forward pass (batchnorm flag
`False`), takes per-column argmaxes of predictions and labels, and returns
the fraction of matching columns (`len(y) = Y.cols`). -/
def predict (nL : ℕ) (X Y : Mat) (p : Params) : ℝ :=
  let fwd := L_model_forward nL X p false ;
  (∑ j ∈ Finset.range Y.cols,
      if argmaxCol Y j = argmaxCol fwd.1 j then (1 : ℝ) else 0) / (Y.cols : ℝ)

/-- The module-level constant `EPSILON = 0.001`. -/
def EPSILON : ℝ := 1 / 1000

/-- Python float `%` on exact rationals: `x % y = x - y * floor(x / y)`. -/
def pyMod (x y : ℚ) : ℚ := x - y * ⌊x / y⌋

/-- The sampling condition `(index / 500) % 100 == 0` of the training loop
(true division, then float modulus, idealised over exact rationals). -/
def samplingCond (index : ℕ) : Prop := pyMod ((index : ℚ) / 500) 100 = 0

instance samplingCondDecidable : DecidablePred samplingCond := fun i =>
  inferInstanceAs (Decidable (pyMod ((i : ℚ) / 500) 100 = 0))

/-- Translation of `np.absolute` on the extended reals (IEEE infinity idealised as `⊤`). -/
def npAbsolute (x : EReal) : EReal := max x (-x)

/-- Translation of `M[:, lo:hi]` (used with `lo ≤ hi ≤ M.cols`). -/
def matSlice (M : Mat) (lo hi : ℕ) : Mat :=
  ⟨M.rows, hi - lo, fun i j => M.entry i (lo + j)⟩

/-- The data the inner training loop reads but never writes: layer count,
train/validation splits, learning rate and batch size. -/
structure TrainCtx where
  nL : ℕ
  Xtr : Mat
  Ytr : Mat
  Xval : Mat
  Yval : Mat
  lr : ℝ
  bs : ℕ

/-- The mutable state of `L_layer_model`'s loop: `params`, `prev_val_acc`
(an extended real, initially `np.inf`), the `converged` flag, the
`training_step` counter, and the two history lists (`history` holds costs,
`accuracy_history` holds validation accuracies). -/
structure TState where
  params : Params
  prev : EReal
  converged : Bool
  step : ℕ
  history : List ℝ
  accHistory : List ℝ

/-- One iteration of the inner loop `for index in range(0, ..., batch_size)`
of `L_layer_model`.  A state whose `converged` flag is set is returned
unchanged (the Python `break` has already left the loop).  Otherwise: slice
the batch, run the forward pass; at a sampling point evaluate validation
accuracy and batch cost and check convergence — on a plateau set `converged`
and stop (the `break` skips the appends, the `prev_val_acc` update, and the
backward/update of this iteration); otherwise record the sample and fall
through to the backward pass and parameter update shared with non-sampling
iterations. -/
def batchStep (P : TrainCtx) (s : TState) (index : ℕ) : TState :=
  if s.converged then s else
  let batch_x := matSlice P.Xtr index (min (index + P.bs) P.Xtr.cols) ;
  let batch_y := matSlice P.Ytr index (min (index + P.bs) P.Ytr.cols) ;
  let fwd := L_model_forward P.nL batch_x s.params false ;
  if samplingCond index then
    let acc := predict P.nL P.Xval P.Yval s.params ;
    let cost := compute_cost fwd.1 batch_y ;
    if npAbsolute (s.prev - (acc : EReal)) < (EPSILON : EReal) then
      { s with converged := true }
    else
      let s1 : TState :=
        { s with prev := (acc : EReal), step := s.step + 1,
                 history := s.history ++ [cost],
                 accHistory := s.accHistory ++ [acc] } ;
      let grads := L_model_backward P.nL fwd.1 batch_y fwd.2 ;
      { s1 with params := update_parameters s1.params grads P.lr }
  else
    let grads := L_model_backward P.nL fwd.1 batch_y fwd.2 ;
    { s with params := update_parameters s.params grads P.lr }

/-- The batch start indices `range(0, n, bs)` of one epoch. -/
def batchIndices (n bs : ℕ) : List ℕ :=
  if bs = 0 then [] else (List.range ((n + bs - 1) / bs)).map (fun k => k * bs)

/-- One epoch: fold the batch iteration over the batch start indices. -/
def epochStep (P : TrainCtx) (s : TState) : TState :=
  (batchIndices P.Xtr.cols P.bs).foldl (batchStep P) s

/-- The epoch loop `for epoch in range(num_iterations)`: a state already
converged breaks out immediately, otherwise one epoch runs and the loop
continues. -/
def runEpochs (P : TrainCtx) : ℕ → TState → TState
  | 0, s => s
  | Nat.succ n, s => if s.converged then s else runEpochs P n (epochStep P s)

/-- Translation of `int(np.ceil(0.2 * m))`, the validation-split size (exact-arithmetic
idealisation of the float product). -/
def valCount (m : ℕ) : ℕ := Nat.ceil ((1 / 5 : ℚ) * m)

/-- The initial loop state of `L_layer_model`:
`prev_val_acc = np.inf`, `converged = False`, `training_step = 0`, empty
histories, and the freshly initialised parameters. -/
def initTState (p : Params) : TState := ⟨p, ⊤, false, 0, [], []⟩

/-- Translation of `L_layer_model(X, Y, layers_dims, learning_rate, num_iterations,
batch_size)`: shuffle (the shuffled index order is the oracle `ind`), split
off the first `ceil(0.2 * X.cols)` shuffled columns as the validation set and
the rest as the training set, initialise parameters, run the epoch loop, and
return the final parameters and the cost history.  (`num_classes =
len(np.unique(Y))` is computed by the source but never used; console printing
is I/O and not modelled.) -/
def L_layer_model (randW : ℕ → ℕ → ℕ → ℝ) (randB : ℕ → ℕ → ℝ) (ind : ℕ → ℕ)
    (X Y : Mat) (layers_dims : List ℕ) (learning_rate : ℝ)
    (num_iterations batch_size : ℕ) : Params × List ℝ :=
  let vc := valCount X.cols ;
  let Xval : Mat := ⟨X.rows, vc, fun i j => X.entry i (ind j)⟩ ;
  let Yval : Mat := ⟨Y.rows, vc, fun i j => Y.entry i (ind j)⟩ ;
  let Xtr : Mat := ⟨X.rows, X.cols - vc, fun i j => X.entry i (ind (vc + j))⟩ ;
  let Ytr : Mat := ⟨Y.rows, X.cols - vc, fun i j => Y.entry i (ind (vc + j))⟩ ;
  let params := initParams randW randB layers_dims ;
  let P : TrainCtx := ⟨params.L, Xtr, Ytr, Xval, Yval, learning_rate, batch_size⟩ ;
  let sF := runEpochs P num_iterations (initTState params) ;
  (sF.params, sF.history)

/-- Translation of `L_model_forward` in store-passing form: the second component is the
parameter store the pass leaves behind.  The body of the source function
performs no in-place numpy write to any parameter array — every operation it
runs (`np.dot`, broadcasting `+`, `np.exp`, division, `np.vectorize`)
allocates a fresh array; the only in-place writes in the whole module are the
`-=` statements of `update_parameters` and the cache-dictionary assignment
`caches[index]['Y'] = Y` of `L_model_backward` — so the store passes through
unchanged. -/
def L_model_forward_store (nL : ℕ) (X : Mat) (p : Params) (bn : Bool) :
    (Mat × List Cache) × Params :=
  (L_model_forward nL X p bn, p)

/-- Translation of `L_model_backward` in store-passing form.  The source function does not
even receive the parameter dictionary (the weights it reads come from the
caches, and it only reads them, via `cache['W'].T`); its single in-place
write targets a cache dictionary.  The store passes through unchanged. -/
def L_model_backward_store (nL : ℕ) (AL Y : Mat) (caches : List Cache)
    (p : Params) : Grads × Params :=
  (L_model_backward nL AL Y caches, p)

/-- Translation of `update_parameters` in store-passing form: the `-=` statements mutate the
parameter arrays in place and the same (now updated) dictionary is returned,
so the store it leaves behind is exactly the returned updated parameters. -/
def update_parameters_store (p : Params) (g : Grads) (lr : ℝ) : Params × Params :=
  let p2 := update_parameters p g lr ;
  (p2, p2)

/-- Concrete 1×1 zero matrix (witness data). -/
def wit0 : Mat := ⟨1, 1, fun _ _ => 0⟩

/-- Concrete 1×1 all-ones matrix (witness data). -/
def wit1 : Mat := ⟨1, 1, fun _ _ => 1⟩

/-- Concrete one-layer parameter set with zero weight and bias (witness
data). -/
def witParams : Params := ⟨1, fun _ => wit0, fun _ => wit0⟩

/-- Concrete 1×4 zero training-feature matrix (witness data). -/
def witXtr : Mat := ⟨1, 4, fun _ _ => 0⟩

/-- Concrete 1×4 all-ones training-label matrix (one-hot for a single class;
witness data). -/
def witYtr : Mat := ⟨1, 4, fun _ _ => 1⟩

/-- Concrete training context: one layer, the degenerate single-class data
above, learning rate 1/100, batch size 4 (witness data). -/
def witCtx : TrainCtx := ⟨1, witXtr, witYtr, wit0, wit1, 1 / 100, 4⟩

/-- Concrete mid-training state: one sample already recorded and
`prev_val_acc = 1` (witness data). -/
def witStateReady : TState := ⟨witParams, ((1 : ℝ) : EReal), false, 1, [0], [1]⟩

/-- One application of the ReLU-activated layer unit at layer `i` (the output
component only); used to state the structure of `L_model_forward`. -/
def reluStep (p : Params) (A : Mat) (i : ℕ) : Mat :=
  (linear_activation_forward A (p.w i) (p.b i) "relu").1

/-- The activation produced by applying the ReLU-activated layer units of
layers `1 .. k` in order to `X`. -/
def reluIter (p : Params) (X : Mat) (k : ℕ) : Mat :=
  (List.range' 1 k).foldl (reluStep p) X


/-- Zero weight-draw oracle for the demo training run (witness data). -/
def demoRand : ℕ → ℕ → ℕ → ℝ := fun _ _ _ => 0

/-- Zero bias-draw oracle for the demo training run (witness data). -/
def demoRandB : ℕ → ℕ → ℝ := fun _ _ => 0

/-- Identity shuffle oracle for the demo training run (witness data). -/
def demoInd : ℕ → ℕ := fun n => n

/-- Concrete 1×5 zero feature matrix for a full demo training run. -/
def demoX : Mat := ⟨1, 5, fun _ _ => 0⟩

/-- Concrete 1×5 all-ones label matrix (one-hot for a single class). -/
def demoY : Mat := ⟨1, 5, fun _ _ => 1⟩

/-- The parameters the demo run initialises (`layers_dims = [1, 1]`, zero
draws). -/
def demoParams : Params := initParams demoRand demoRandB [1, 1]

/-- The validation feature split of the demo run (first shuffled column). -/
def demoXval : Mat := ⟨demoX.rows, valCount demoX.cols, fun i j => demoX.entry i (demoInd j)⟩

/-- The validation label split of the demo run. -/
def demoYval : Mat := ⟨demoY.rows, valCount demoX.cols, fun i j => demoY.entry i (demoInd j)⟩

/-- The training feature split of the demo run (remaining four columns). -/
def demoXtr : Mat :=
  ⟨demoX.rows, demoX.cols - valCount demoX.cols,
    fun i j => demoX.entry i (demoInd (valCount demoX.cols + j))⟩

/-- The training label split of the demo run. -/
def demoYtr : Mat :=
  ⟨demoY.rows, demoX.cols - valCount demoX.cols,
    fun i j => demoY.entry i (demoInd (valCount demoX.cols + j))⟩

/-- The training context the demo run builds (learning rate 1/100, batch
size 4, so each epoch is a single batch sampled at `index = 0`). -/
def demoCtx : TrainCtx :=
  ⟨demoParams.L, demoXtr, demoYtr, demoXval, demoYval, 1 / 100, 4⟩

attribute [ext] Mat

/-! ## Helper lemmas -/

theorem softmax_fst_entry (Z : Mat) (i j : ℕ) :
    (softmax Z).1.entry i j =
      Real.exp (Z.entry i j - colMax Z j) /
        ∑ k ∈ Finset.range Z.rows, Real.exp (Z.entry k j - colMax Z j) := rfl

theorem softmax_snd_entry (Z : Mat) (i j : ℕ) :
    (softmax Z).2.entry i j = Z.entry i j - colMax Z j := rfl

theorem softmax_fst_rows (Z : Mat) : (softmax Z).1.rows = Z.rows := rfl

theorem softmax_snd_rows (Z : Mat) : (softmax Z).2.rows = Z.rows := rfl

theorem softmax_snd_cols (Z : Mat) : (softmax Z).2.cols = Z.cols := rfl

theorem expColSum_pos (Z : Mat) (j : ℕ) (hr : 0 < Z.rows) :
    0 < ∑ k ∈ Finset.range Z.rows, Real.exp (Z.entry k j - colMax Z j) :=
  Finset.sum_pos (fun k _ => Real.exp_pos _) ⟨0, Finset.mem_range.mpr hr⟩

theorem colMax_le (Z : Mat) (i j : ℕ) (hi : i < Z.rows) : Z.entry i j ≤ colMax Z j := by
  unfold colMax
  rw [dif_pos ⟨i, Finset.mem_range.mpr hi⟩]
  exact Finset.le_sup' (fun k => Z.entry k j) (Finset.mem_range.mpr hi)

theorem colMax_mem (Z : Mat) (j : ℕ) (hr : 0 < Z.rows) :
    ∃ i, i < Z.rows ∧ colMax Z j = Z.entry i j := by
  unfold colMax
  rw [dif_pos ⟨0, Finset.mem_range.mpr hr⟩]
  obtain ⟨i, hi, hEq⟩ :=
    Finset.exists_mem_eq_sup' (⟨0, Finset.mem_range.mpr hr⟩ :
      (Finset.range Z.rows).Nonempty) (fun k => Z.entry k j)
  exact ⟨i, Finset.mem_range.mp hi, hEq⟩

theorem colMax_shifted (Z : Mat) (j : ℕ) : colMax (softmax Z).2 j = 0 := by
  rcases Nat.eq_zero_or_pos Z.rows with h0 | hr
  · unfold colMax
    rw [dif_neg]
    rw [softmax_snd_rows, h0]
    simp
  · apply le_antisymm
    · unfold colMax
      rw [dif_pos]
      · apply Finset.sup'_le
        intro i hi
        rw [softmax_snd_entry]
        have := colMax_le Z i j (by
          have := Finset.mem_range.mp hi
          rwa [softmax_snd_rows] at this)
        linarith
      · exact ⟨0, Finset.mem_range.mpr (by rw [softmax_snd_rows]; exact hr)⟩
    · obtain ⟨i, hi, hEq⟩ := colMax_mem Z j hr
      have h2 : (softmax Z).2.entry i j = 0 := by
        rw [softmax_snd_entry, hEq]; ring
      have h3 := colMax_le (softmax Z).2 i j (by rw [softmax_snd_rows]; exact hi)
      rw [h2] at h3
      exact h3

theorem softmax_fst_cols (Z : Mat) : (softmax Z).1.cols = Z.cols := rfl

theorem softmax_shift_invariant (Z : Mat) : (softmax ((softmax Z).2)).1 = (softmax Z).1 := by
  ext i j
  · simp only [softmax_fst_rows, softmax_snd_rows]
  · simp only [softmax_fst_cols, softmax_snd_cols]
  · rw [softmax_fst_entry, softmax_fst_entry, softmax_snd_rows]
    rw [colMax_shifted]
    simp only [softmax_snd_entry, sub_zero]

/-! ## C2: softmax output columns sum to 1, entries lie in (0, 1], cache is the
shifted input -/

/-- C2: for every input matrix with at least one row, the softmax output has
every (in-shape) column summing to 1 and every in-shape entry in `(0, 1]`,
and the returned activation cache is the input minus its per-column
maximum. -/
theorem softmax_output_spec (Z : Mat) (hr : 0 < Z.rows) :
    (∀ j, j < Z.cols → ∑ i ∈ Finset.range Z.rows, (softmax Z).1.entry i j = 1) ∧
    (∀ i j, i < Z.rows → j < Z.cols →
      0 < (softmax Z).1.entry i j ∧ (softmax Z).1.entry i j ≤ 1) ∧
    ((softmax Z).2.rows = Z.rows ∧ (softmax Z).2.cols = Z.cols ∧
      ∀ i j, (softmax Z).2.entry i j = Z.entry i j - colMax Z j) := by
  have hS : ∀ j, 0 < ∑ k ∈ Finset.range Z.rows, Real.exp (Z.entry k j - colMax Z j) :=
    fun j => expColSum_pos Z j hr
  refine ⟨?_, ?_, rfl, rfl, fun i j => rfl⟩
  · intro j _
    rw [Finset.sum_congr rfl (fun i _ => softmax_fst_entry Z i j), ← Finset.sum_div,
      div_self (ne_of_gt (hS j))]
  · intro i j hi _
    rw [softmax_fst_entry]
    constructor
    · exact div_pos (Real.exp_pos _) (hS j)
    · rw [div_le_one (hS j)]
      exact Finset.single_le_sum (f := fun k => Real.exp (Z.entry k j - colMax Z j))
        (fun k _ => (Real.exp_pos _).le) (Finset.mem_range.mpr hi)

/-- C2 witness: the theorem applied to the concrete 1×1 zero matrix. -/
theorem softmax_output_spec_witness :
    0 < wit0.rows ∧
    ∑ i ∈ Finset.range wit0.rows, (softmax wit0).1.entry i 0 = 1 :=
  ⟨Nat.one_pos, (softmax_output_spec wit0 Nat.one_pos).1 0 Nat.one_pos⟩

/-! ## C4: softmax_backward computes softmax(Z) − Y from the shifted cache -/

/-- C4: on a cache whose activation slot holds the max-shifted `Z` stored by
the forward pass and whose `Y` slot holds the attached true labels,
`softmax_backward` returns `softmax(Z) − Y` for the original `Z` (the `dA`
argument is ignored): recomputing softmax from the shifted `Z` yields the
same activation as softmax of the original `Z`. -/
theorem softmax_backward_closed_form (Z Yl dA A W b : Mat) :
    softmax_backward dA ⟨A, W, b, (softmax Z).2, some Yl⟩ = matSub (softmax Z).1 Yl ∧
    (softmax ((softmax Z).2)).1 = (softmax Z).1 := by
  constructor
  · have h1 : softmax_backward dA ⟨A, W, b, (softmax Z).2, some Yl⟩ =
        matSub (softmax ((softmax Z).2)).1 (cacheY ⟨A, W, b, (softmax Z).2, some Yl⟩) := by
      unfold softmax_backward
      rfl
    rw [h1, softmax_shift_invariant]
    rfl
  · exact softmax_shift_invariant Z

/-! ## C5: initialize_parameters never signals an error -/

/-- C5 counterexample: for `layer_dims = [3]` (fewer than 2 elements) the
code's `initialize_parameters` returns normally with an empty parameter
dictionary, while the spec-modelled `initialize` signals
`ConfigurationError`; the claim that the code fails for such input is false. -/
theorem initialize_parameters_short_dims_ok :
    ([3] : List ℕ).length < 2 ∧
    initialize_parameters (fun _ _ _ => 0) (fun _ _ => 0) [3] =
      Except.ok (initParams (fun _ _ _ => 0) (fun _ _ => 0) [3]) ∧
    initializeSpec (fun _ _ _ => 0) (fun _ _ => 0) [3] =
      Except.error "ConfigurationError" := by
  refine ⟨by norm_num, rfl, ?_⟩
  unfold initializeSpec
  norm_num

/-- C5 amended: `initialize_parameters` never signals any error: for every
`layer_dims` — including those with fewer than 2 elements — it returns a
parameter dictionary (`n_layers = len(layer_dims) - 1`, empty when the length
is below 2). -/
theorem initialize_parameters_never_fails (randW : ℕ → ℕ → ℕ → ℝ)
    (randB : ℕ → ℕ → ℝ) (layer_dims : List ℕ) :
    initialize_parameters randW randB layer_dims =
      Except.ok (initParams randW randB layer_dims) ∧
    (initParams randW randB layer_dims).L = layer_dims.length - 1 :=
  ⟨rfl, rfl⟩

/-! ## C8: the use_batchnorm flag is not wired into the forward chain -/

/-- C8: for every input, parameter set and pair of boolean flag values,
`L_model_forward` returns identical outputs and caches — the
`use_batchnorm` flag is received but never read. -/
theorem L_model_forward_ignores_batchnorm (nL : ℕ) (X : Mat) (p : Params)
    (b1 b2 : Bool) :
    L_model_forward nL X p b1 = L_model_forward nL X p b2 := rfl

/-! ## C9: forward/backward passes leave the parameter store unchanged -/

/-- C9: in store-passing form, a complete forward pass and a complete
backward pass leave the parameter store exactly as it was — every weight and
bias is the same object — and the store left behind by `update_parameters` is
its updated parameter dictionary, so the updater is the only operation that
changes the store. -/
theorem passes_leave_parameters_unchanged (nL : ℕ) (X AL Yl : Mat) (p : Params)
    (bn : Bool) (caches : List Cache) (g : Grads) (lr : ℝ) :
    (L_model_forward_store nL X p bn).2 = p ∧
    (L_model_backward_store nL AL Yl caches p).2 = p ∧
    (L_model_backward_store nL AL Yl (L_model_forward_store nL X p bn).1.2
      (L_model_forward_store nL X p bn).2).2 = p ∧
    (update_parameters_store p g lr).2 = update_parameters p g lr :=
  ⟨rfl, rfl, rfl, rfl⟩

/-! ## C1: compute_cost is the categorical cross-entropy on one-hot labels -/

theorem list_range_map_sum {M : Type} [AddCommMonoid M] (g : ℕ → M) (n : ℕ) :
    ((List.range n).map g).sum = ∑ i ∈ Finset.range n, g i := by
  induction n with
  | zero => simp
  | succ n ih =>
      rw [List.range_succ, List.map_append, List.sum_append, Finset.sum_range_succ, ih]
      simp

theorem list_flatMap_length {α β : Type} (l : List α) (F : α → List β) :
    (l.flatMap F).length = (l.map (fun i => (F i).length)).sum := by
  induction l with
  | nil => simp
  | cons a t ih => simp [List.flatMap_cons, ih]

theorem list_flatMap_sum {α : Type} {M : Type} [AddCommMonoid M] (l : List α)
    (F : α → List M) :
    (l.flatMap F).sum = (l.map (fun i => (F i).sum)).sum := by
  induction l with
  | nil => simp
  | cons a t ih => simp [List.flatMap_cons, ih]

theorem filter_map_range_sum {M : Type} [AddCommMonoid M] (q : ℕ → Bool) (g : ℕ → M)
    (C : ℕ) :
    (((List.range C).filter q).map g).sum = ∑ j ∈ Finset.range C, if q j then g j else 0 := by
  induction C with
  | zero => simp
  | succ n ih =>
      rw [List.range_succ, List.filter_append, List.map_append, List.sum_append,
        Finset.sum_range_succ, ih]
      cases hq : q n <;> simp [hq]

theorem filter_range_length (q : ℕ → Bool) (C : ℕ) :
    ((List.range C).filter q).length = ∑ j ∈ Finset.range C, if q j then 1 else 0 := by
  induction C with
  | zero => simp
  | succ n ih =>
      rw [List.range_succ, List.filter_append, Finset.sum_range_succ,
        List.length_append, ih]
      cases hq : q n <;> simp [hq]

theorem sum_getD_of_length (l : List ℝ) :
    ∑ j ∈ Finset.range l.length, l.getD j 0 = l.sum := by
  induction l with
  | nil => simp
  | cons a t ih =>
      rw [List.length_cons, Finset.sum_range_succ']
      simp only [List.getD_cons_succ, List.getD_cons_zero, List.sum_cons]
      rw [ih]; ring

theorem maskedLogs_length (AL Y : Mat) (tc : ℕ → ℕ)
    (htc : ∀ j, j < Y.cols → tc j < Y.rows)
    (hone : ∀ j, j < Y.cols → Y.entry (tc j) j = 1)
    (hzero : ∀ i j, i < Y.rows → j < Y.cols → i ≠ tc j → Y.entry i j = 0) :
    (maskedLogs AL Y).length = Y.cols := by
  unfold maskedLogs
  rw [list_flatMap_length, list_range_map_sum]
  have h1 : ∀ i, i ∈ Finset.range Y.rows →
      ((((List.range Y.cols).filter (fun j => decide (0 < Y.entry i j))).map
        (fun j => Real.log (AL.entry i j))).length : ℕ) =
      ∑ j ∈ Finset.range Y.cols, if 0 < Y.entry i j then 1 else 0 := by
    intro i _
    rw [List.length_map, filter_range_length]
    exact Finset.sum_congr rfl (fun j _ => by simp)
  rw [Finset.sum_congr rfl h1, Finset.sum_comm]
  have h2 : ∀ j, j ∈ Finset.range Y.cols →
      (∑ i ∈ Finset.range Y.rows, if 0 < Y.entry i j then (1 : ℕ) else 0) = 1 := by
    intro j hj
    have hj' := Finset.mem_range.mp hj
    rw [Finset.sum_eq_single_of_mem (tc j) (Finset.mem_range.mpr (htc j hj'))]
    · rw [hone j hj']; norm_num
    · intro i hi hne
      rw [hzero i j (Finset.mem_range.mp hi) hj' hne]
      norm_num
  rw [Finset.sum_congr rfl h2]
  simp

theorem maskedLogs_sum (AL Y : Mat) (tc : ℕ → ℕ)
    (htc : ∀ j, j < Y.cols → tc j < Y.rows)
    (hone : ∀ j, j < Y.cols → Y.entry (tc j) j = 1)
    (hzero : ∀ i j, i < Y.rows → j < Y.cols → i ≠ tc j → Y.entry i j = 0) :
    (maskedLogs AL Y).sum = ∑ j ∈ Finset.range Y.cols, Real.log (AL.entry (tc j) j) := by
  unfold maskedLogs
  rw [list_flatMap_sum, list_range_map_sum]
  have h1 : ∀ i, i ∈ Finset.range Y.rows →
      (((List.range Y.cols).filter (fun j => decide (0 < Y.entry i j))).map
        (fun j => Real.log (AL.entry i j))).sum =
      ∑ j ∈ Finset.range Y.cols, if 0 < Y.entry i j then Real.log (AL.entry i j) else 0 := by
    intro i _
    rw [filter_map_range_sum]
    exact Finset.sum_congr rfl (fun j _ => by simp)
  rw [Finset.sum_congr rfl h1, Finset.sum_comm]
  apply Finset.sum_congr rfl
  intro j hj
  have hj' := Finset.mem_range.mp hj
  rw [Finset.sum_eq_single_of_mem (tc j) (Finset.mem_range.mpr (htc j hj'))]
  · rw [if_pos (by rw [hone j hj']; norm_num)]
  · intro i hi hne
    rw [if_neg (by rw [hzero i j (Finset.mem_range.mp hi) hj' hne]; norm_num)]

/-- C1: on a prediction matrix whose entries at the true-class positions are
strictly positive and a label matrix of the same shape each of whose columns
is one-hot (value 1 at the true-class row `tc j`, value 0 elsewhere),
`compute_cost` equals the categorical cross-entropy: minus the average over
the batch columns of the log of the predicted probability at the true
class. -/
theorem compute_cost_cross_entropy (AL Y : Mat) (tc : ℕ → ℕ)
    (hrows : Y.rows = AL.rows) (hcols : Y.cols = AL.cols)
    (htc : ∀ j, j < Y.cols → tc j < Y.rows)
    (hone : ∀ j, j < Y.cols → Y.entry (tc j) j = 1)
    (hzero : ∀ i j, i < Y.rows → j < Y.cols → i ≠ tc j → Y.entry i j = 0)
    (hpos : ∀ j, j < Y.cols → 0 < AL.entry (tc j) j) :
    compute_cost AL Y =
      -(∑ j ∈ Finset.range Y.cols, Real.log (AL.entry (tc j) j)) * (1 / (AL.cols : ℝ)) := by
  simp only [compute_cost]
  congr 1
  congr 1
  rw [Finset.sum_comm]
  have hcol : ∀ j, j ∈ Finset.range Y.cols →
      ∑ i ∈ Finset.range Y.rows, (maskedLogs AL Y).getD j 0 * Y.entry i j =
      (maskedLogs AL Y).getD j 0 := by
    intro j hj
    have hj' := Finset.mem_range.mp hj
    rw [← Finset.mul_sum]
    rw [Finset.sum_eq_single_of_mem (tc j) (Finset.mem_range.mpr (htc j hj'))]
    · rw [hone j hj', mul_one]
    · intro i hi hne
      exact hzero i j (Finset.mem_range.mp hi) hj' hne
  rw [Finset.sum_congr rfl hcol]
  have hlen := maskedLogs_length AL Y tc htc hone hzero
  rw [← hlen, sum_getD_of_length, maskedLogs_sum AL Y tc htc hone hzero, hlen]

/-- C1 witness: on the concrete 1×1 matrices `AL = Y = [[1]]` the theorem
evaluates the cost to `-log 1 / 1 = 0`. -/
theorem compute_cost_cross_entropy_witness : compute_cost wit1 wit1 = 0 := by
  have h := compute_cost_cross_entropy wit1 wit1 (fun _ => 0) rfl rfl
    (fun j _ => Nat.one_pos)
    (fun j _ => rfl)
    (fun i j hi _ hne => absurd (Nat.lt_one_iff.mp hi) hne)
    (fun j _ => by norm_num [wit1])
  rw [h]
  norm_num [wit1]

/-! ## C3: L_model_forward structure -/

theorem forwardLoop_fst (p : Params) (l : List ℕ) :
    ∀ A : Mat, (forwardLoop p A l).1 = l.foldl (reluStep p) A := by
  induction l with
  | nil => intro A; rfl
  | cons i rest ih =>
      intro A
      show (forwardLoop p (reluStep p A i) rest).1 = _
      rw [ih, List.foldl_cons]

theorem forwardLoop_length (p : Params) (l : List ℕ) :
    ∀ A : Mat, (forwardLoop p A l).2.length = l.length := by
  induction l with
  | nil => intro A; rfl
  | cons i rest ih =>
      intro A
      show ((linear_activation_forward A (p.w i) (p.b i) "relu").2 ::
        (forwardLoop p (reluStep p A i) rest).2).length = _
      rw [List.length_cons, ih, List.length_cons]

theorem forwardLoop_getD (p : Params) (l : List ℕ) :
    ∀ (A : Mat) (k : ℕ), k < l.length →
      (forwardLoop p A l).2.getD k cacheDefault =
        (linear_activation_forward ((l.take k).foldl (reluStep p) A)
          (p.w (l.getD k 0)) (p.b (l.getD k 0)) "relu").2 := by
  induction l with
  | nil => intro A k hk; exact absurd hk (Nat.not_lt_zero k)
  | cons i rest ih =>
      intro A k hk
      match k with
      | 0 => rfl
      | Nat.succ k =>
          show (forwardLoop p (reluStep p A i) rest).2.getD k cacheDefault = _
          rw [ih (reluStep p A i) k (by simpa using hk)]
          rfl

theorem take_range' : ∀ (n k s : ℕ), k ≤ n → List.take k (List.range' s n) = List.range' s k := by
  intro n
  induction n with
  | zero => intro k s hk; interval_cases k; rfl
  | succ n ih =>
      intro k s hk
      match k with
      | 0 => rfl
      | Nat.succ k =>
          rw [List.range'_succ, List.range'_succ, List.take_cons (Nat.succ_pos k), Nat.succ_sub_one]
          rw [ih k (s + 1) (Nat.succ_le_succ_iff.mp hk)]

theorem getD_range' : ∀ (n k s : ℕ), k < n → (List.range' s n).getD k 0 = s + k := by
  intro n
  induction n with
  | zero => intro k s hk; exact absurd hk (Nat.not_lt_zero k)
  | succ n ih =>
      intro k s hk
      match k with
      | 0 => simp [List.range'_succ]
      | Nat.succ k =>
          rw [List.range'_succ]
          show (List.range' (s + 1) n).getD k 0 = _
          rw [ih k (s + 1) (by simpa using hk)]
          omega

/-- C3: for `L ≥ 1` layers, `L_model_forward` applies the ReLU-activated
layer unit to layers `1 .. L-1` in order, applies the softmax-activated layer
unit to layer `L`, and returns the final activation together with the ordered
list of per-layer caches of length exactly `L` (cache `k` is the ReLU cache
of layer `k+1` for `k < L-1`, and the last cache is the softmax cache of
layer `L`). -/
theorem L_model_forward_structure (nL : ℕ) (X : Mat) (p : Params) (bn : Bool)
    (h : 1 ≤ nL) :
    (L_model_forward nL X p bn).2.length = nL ∧
    (L_model_forward nL X p bn).1 =
      (linear_activation_forward (reluIter p X (nL - 1)) (p.w nL) (p.b nL) "softmax").1 ∧
    (∀ k, k < nL - 1 →
      (L_model_forward nL X p bn).2.getD k cacheDefault =
        (linear_activation_forward (reluIter p X k) (p.w (k + 1)) (p.b (k + 1)) "relu").2) ∧
    (L_model_forward nL X p bn).2.getD (nL - 1) cacheDefault =
      (linear_activation_forward (reluIter p X (nL - 1)) (p.w nL) (p.b nL) "softmax").2 := by
  have hfst : (L_model_forward nL X p bn).1 =
      (linear_activation_forward (reluIter p X (nL - 1)) (p.w nL) (p.b nL) "softmax").1 := by
    show (linear_activation_forward (forwardLoop p X (List.range' 1 (nL - 1))).1
      (p.w nL) (p.b nL) "softmax").1 = _
    rw [forwardLoop_fst]
    rfl
  have hsnd : (L_model_forward nL X p bn).2 =
      (forwardLoop p X (List.range' 1 (nL - 1))).2 ++
        [(linear_activation_forward (forwardLoop p X (List.range' 1 (nL - 1))).1
          (p.w nL) (p.b nL) "softmax").2] := rfl
  have hlen0 : (forwardLoop p X (List.range' 1 (nL - 1))).2.length = nL - 1 := by
    rw [forwardLoop_length, List.length_range']
  refine ⟨?_, hfst, ?_, ?_⟩
  · rw [hsnd, List.length_append, hlen0, List.length_singleton]
    omega
  · intro k hk
    rw [hsnd, List.getD_append _ _ _ _ (by rw [hlen0]; exact hk)]
    rw [forwardLoop_getD p _ X k (by rw [List.length_range']; exact hk)]
    rw [take_range' _ _ _ (le_of_lt hk), getD_range' _ _ _ hk]
    rw [Nat.add_comm 1 k]
    rfl
  · rw [hsnd, List.getD_append_right _ _ _ _ (by rw [hlen0]), hlen0, Nat.sub_self]
    show (linear_activation_forward (forwardLoop p X (List.range' 1 (nL - 1))).1
      (p.w nL) (p.b nL) "softmax").2 = _
    rw [forwardLoop_fst]
    rfl

/-- C3 witness: the theorem applied to a concrete one-layer network. -/
theorem L_model_forward_structure_witness :
    1 ≤ 1 ∧ (L_model_forward 1 wit0 witParams false).2.length = 1 :=
  ⟨le_refl 1, (L_model_forward_structure 1 wit0 witParams false (le_refl 1)).1⟩

/-! ## Trainer helper lemmas -/

theorem batchStep_of_converged (P : TrainCtx) (s : TState) (index : ℕ)
    (h : s.converged = true) : batchStep P s index = s := by
  simp [batchStep, h]

theorem foldl_batchStep_of_converged (P : TrainCtx) (idxs : List ℕ) :
    ∀ s : TState, s.converged = true → List.foldl (batchStep P) s idxs = s := by
  induction idxs with
  | nil => intro s _; rfl
  | cons i rest ih =>
      intro s h
      rw [List.foldl_cons, batchStep_of_converged P s i h]
      exact ih s h

theorem runEpochs_of_converged (P : TrainCtx) (fuel : ℕ) (s : TState)
    (h : s.converged = true) : runEpochs P fuel s = s := by
  cases fuel with
  | zero => rfl
  | succ n => simp [runEpochs, h]

theorem batchStep_trigger (P : TrainCtx) (s : TState) (index : ℕ)
    (h1 : s.converged = false) (h2 : samplingCond index)
    (h3 : npAbsolute (s.prev - ((predict P.nL P.Xval P.Yval s.params : ℝ) : EReal)) <
      (EPSILON : EReal)) :
    batchStep P s index = { s with converged := true } := by
  simp only [batchStep]
  rw [if_neg (by simp [h1]), if_pos h2, if_pos h3]

theorem batchStep_sample_no_trigger (P : TrainCtx) (s : TState) (index : ℕ)
    (h1 : s.converged = false) (h2 : samplingCond index)
    (h3 : ¬ npAbsolute (s.prev - ((predict P.nL P.Xval P.Yval s.params : ℝ) : EReal)) <
      (EPSILON : EReal)) :
    batchStep P s index =
      { s with
        prev := ((predict P.nL P.Xval P.Yval s.params : ℝ) : EReal)
        step := s.step + 1
        history := s.history ++ [compute_cost
          (L_model_forward P.nL (matSlice P.Xtr index (min (index + P.bs) P.Xtr.cols))
            s.params false).1
          (matSlice P.Ytr index (min (index + P.bs) P.Ytr.cols))]
        accHistory := s.accHistory ++ [predict P.nL P.Xval P.Yval s.params]
        params := update_parameters s.params
          (L_model_backward P.nL
            (L_model_forward P.nL (matSlice P.Xtr index (min (index + P.bs) P.Xtr.cols))
              s.params false).1
            (matSlice P.Ytr index (min (index + P.bs) P.Ytr.cols))
            (L_model_forward P.nL (matSlice P.Xtr index (min (index + P.bs) P.Xtr.cols))
              s.params false).2)
          P.lr } := by
  simp only [batchStep]
  rw [if_neg (by simp [h1]), if_pos h2, if_neg h3]

theorem batchStep_no_sample (P : TrainCtx) (s : TState) (index : ℕ)
    (h1 : s.converged = false) (h2 : ¬ samplingCond index) :
    batchStep P s index =
      { s with
        params := update_parameters s.params
          (L_model_backward P.nL
            (L_model_forward P.nL (matSlice P.Xtr index (min (index + P.bs) P.Xtr.cols))
              s.params false).1
            (matSlice P.Ytr index (min (index + P.bs) P.Ytr.cols))
            (L_model_forward P.nL (matSlice P.Xtr index (min (index + P.bs) P.Xtr.cols))
              s.params false).2)
          P.lr } := by
  simp only [batchStep]
  rw [if_neg (by simp [h1]), if_neg h2]

theorem npAbsolute_top_sub (a : ℝ) : npAbsolute ((⊤ : EReal) - (a : EReal)) = ⊤ := by
  rw [EReal.top_sub_coe]
  unfold npAbsolute
  rw [max_eq_left le_top]

theorem not_trigger_of_top (a : ℝ) :
    ¬ npAbsolute ((⊤ : EReal) - (a : EReal)) < (EPSILON : EReal) := by
  rw [npAbsolute_top_sub]
  exact not_top_lt

theorem npAbsolute_coe_lt (p a e : ℝ) :
    (npAbsolute ((p : EReal) - (a : EReal)) < (e : EReal)) ↔ |p - a| < e := by
  rw [← EReal.coe_sub]
  unfold npAbsolute
  rw [← EReal.coe_neg]
  rw [show ((p - a : ℝ) : EReal) ⊔ ((-(p - a) : ℝ) : EReal) =
    ((max (p - a) (-(p - a)) : ℝ) : EReal) from rfl]
  rw [EReal.coe_lt_coe_iff, ← abs_eq_max_neg]

theorem argmaxCol_rows_one (M : Mat) (h : M.rows = 1) (j : ℕ) : argmaxCol M j = 0 := by
  unfold argmaxCol
  rw [h]
  simp [List.range_succ, ite_self]

theorem laf_softmax (A W B : Mat) :
    linear_activation_forward A W B "softmax" =
      ((softmax (linear_forward A W B).1).1,
        ⟨A, W, B, (softmax (linear_forward A W B).1).2, none⟩) := by
  simp only [linear_activation_forward]
  rw [if_neg (by decide : ¬("softmax" = "relu"))]

theorem L_model_forward_one (X : Mat) (p : Params) (bn : Bool) :
    L_model_forward 1 X p bn =
      ((linear_activation_forward X (p.w 1) (p.b 1) "softmax").1,
        [(linear_activation_forward X (p.w 1) (p.b 1) "softmax").2]) := rfl

theorem predict_one (X Y : Mat) (p : Params) (hY : Y.rows = 1) (hYc : Y.cols = 1)
    (hW : (p.w 1).rows = 1) : predict 1 X Y p = 1 := by
  simp only [predict]
  have h1 : ∀ j, argmaxCol Y j = 0 := argmaxCol_rows_one Y hY
  have h2 : ∀ j, argmaxCol (L_model_forward 1 X p false).1 j = 0 := by
    intro j
    apply argmaxCol_rows_one
    rw [L_model_forward_one, laf_softmax]
    rw [show ((softmax (linear_forward X (p.w 1) (p.b 1)).1).1, (⟨X, p.w 1, p.b 1,
      (softmax (linear_forward X (p.w 1) (p.b 1)).1).2, none⟩ : Cache)).1.rows =
      (p.w 1).rows from rfl]
    exact hW
  simp only [h1, h2, if_pos rfl]
  rw [hYc]
  norm_num

theorem predict_wit : predict 1 wit0 wit1 witParams = 1 :=
  predict_one wit0 wit1 witParams rfl rfl rfl

theorem samplingCond_zero : samplingCond 0 := by
  unfold samplingCond pyMod
  norm_num

theorem witReady_trigger :
    npAbsolute (witStateReady.prev -
      ((predict witCtx.nL witCtx.Xval witCtx.Yval witStateReady.params : ℝ) : EReal)) <
      (EPSILON : EReal) := by
  show npAbsolute (((1 : ℝ) : EReal) - ((predict 1 wit0 wit1 witParams : ℝ) : EReal)) <
    (EPSILON : EReal)
  rw [predict_wit, npAbsolute_coe_lt]
  norm_num [EPSILON]

/-! ## C6: a validation-accuracy plateau at a sampling point converges and
stops immediately -/

/-- C6: whenever a sampling point of the training loop observes a validation
accuracy within `EPSILON = 0.001` of the previously sampled one, the batch
iteration sets `converged` and changes nothing else, and every remaining
batch iteration and epoch leaves the state untouched — the Trainer stops
immediately.  The hypothesis covers, in particular, two consecutive
identical accuracies (difference 0). -/
theorem trainer_plateau_converges (P : TrainCtx) (s : TState) (index : ℕ)
    (h1 : s.converged = false) (h2 : samplingCond index)
    (h3 : npAbsolute (s.prev - ((predict P.nL P.Xval P.Yval s.params : ℝ) : EReal)) <
      (EPSILON : EReal)) :
    (batchStep P s index).converged = true ∧
    batchStep P s index = { s with converged := true } ∧
    (∀ idxs : List ℕ,
      List.foldl (batchStep P) (batchStep P s index) idxs = batchStep P s index) ∧
    (∀ fuel : ℕ, runEpochs P fuel (batchStep P s index) = batchStep P s index) := by
  have hb := batchStep_trigger P s index h1 h2 h3
  refine ⟨by rw [hb], hb, ?_, ?_⟩
  · intro idxs
    exact foldl_batchStep_of_converged P idxs _ (by rw [hb])
  · intro fuel
    exact runEpochs_of_converged P fuel _ (by rw [hb])

/-- C6 witness: a concrete state whose previous sampled accuracy equals the
current validation accuracy (difference 0) converges at the sampling point
`index = 0`. -/
theorem trainer_plateau_converges_witness :
    witStateReady.converged = false ∧ samplingCond 0 ∧
    (batchStep witCtx witStateReady 0).converged = true :=
  ⟨rfl, samplingCond_zero,
    (trainer_plateau_converges witCtx witStateReady 0 rfl samplingCond_zero
      witReady_trigger).1⟩

/-! ## C7: the triggering sampling point records no History sample -/

theorem runEpochs_two (P : TrainCtx) (s : TState) (h0 : s.converged = false)
    (h1 : (epochStep P s).converged = false) :
    runEpochs P 2 s = epochStep P (epochStep P s) := by
  show (if s.converged = true then s else
    if (epochStep P s).converged = true then epochStep P s
    else epochStep P (epochStep P s)) = _
  rw [if_neg (by simp [h0]), if_neg (by simp [h1])]

theorem upd_w_rows (p : Params) (g : Grads) (lr : ℝ) (h : 1 ≤ p.L) :
    ((update_parameters p g lr).w 1).rows = (p.w 1).rows := by
  simp only [update_parameters]
  rw [if_pos ⟨le_refl 1, h⟩]
  rfl

theorem valCount_five : valCount demoX.cols = 1 := by
  show valCount 5 = 1
  unfold valCount
  rw [show ((1 / 5 : ℚ) * ((5 : ℕ) : ℚ)) = 1 by norm_num]
  exact Nat.ceil_one

theorem demoParams_w_rows : (demoParams.w 1).rows = 1 := by
  simp [demoParams, initParams]

theorem demoYval_cols : demoYval.cols = 1 := valCount_five

theorem demoCtx_Xtr_cols : demoCtx.Xtr.cols = 4 := by
  show demoX.cols - valCount demoX.cols = 4
  rw [valCount_five]
  rfl

theorem demoAcc (p : Params) (h : (p.w 1).rows = 1) :
    predict demoCtx.nL demoCtx.Xval demoCtx.Yval p = 1 := by
  show predict 1 demoXval demoYval p = 1
  exact predict_one demoXval demoYval p rfl demoYval_cols h

/-- C7 counterexample: a complete concrete training run (`layers_dims =
[1, 1]`, five examples of a single class, batch size 4, two epochs) reaches
two sampling points; the second observes the same validation accuracy as the
first and triggers the `Converged` transition, and the run returns a history
with exactly ONE sample — the triggering sampling point contributed none,
refuting the claim that every sampling point appends its sample before the
convergence check. -/
theorem history_skips_converging_sample :
    (L_layer_model demoRand demoRandB demoInd demoX demoY [1, 1] (1 / 100) 2 4).2.length
      = 1 ∧
    (runEpochs demoCtx 2 (initTState demoParams)).converged = true ∧
    (runEpochs demoCtx 2 (initTState demoParams)).step = 1 := by
  have hbi : batchIndices demoCtx.Xtr.cols demoCtx.bs = [0] := by
    rw [demoCtx_Xtr_cols]
    rfl
  have hepoch : ∀ s : TState, epochStep demoCtx s = batchStep demoCtx s 0 := by
    intro s
    unfold epochStep
    rw [hbi]
    rfl
  have hstep1 := batchStep_sample_no_trigger demoCtx (initTState demoParams) 0 rfl
    samplingCond_zero (not_trigger_of_top _)
  have hconv1 : (batchStep demoCtx (initTState demoParams) 0).converged = false := by
    rw [hstep1]
    rfl
  have hrun : runEpochs demoCtx 2 (initTState demoParams) =
      batchStep demoCtx (batchStep demoCtx (initTState demoParams) 0) 0 := by
    rw [runEpochs_two demoCtx (initTState demoParams) rfl
      (by rw [hepoch]; exact hconv1)]
    rw [hepoch, hepoch]
  have hacc0 : predict demoCtx.nL demoCtx.Xval demoCtx.Yval
      (initTState demoParams).params = 1 := demoAcc demoParams demoParams_w_rows
  have hw1 : ((batchStep demoCtx (initTState demoParams) 0).params.w 1).rows = 1 := by
    rw [hstep1]
    show ((update_parameters (initTState demoParams).params _ demoCtx.lr).w 1).rows = 1
    rw [upd_w_rows _ _ _ (by exact le_refl 1)]
    exact demoParams_w_rows
  have hacc1 : predict demoCtx.nL demoCtx.Xval demoCtx.Yval
      (batchStep demoCtx (initTState demoParams) 0).params = 1 := demoAcc _ hw1
  have hprev : (batchStep demoCtx (initTState demoParams) 0).prev = ((1 : ℝ) : EReal) := by
    rw [hstep1]
    show ((predict demoCtx.nL demoCtx.Xval demoCtx.Yval
      (initTState demoParams).params : ℝ) : EReal) = _
    rw [hacc0]
  have htrig : npAbsolute ((batchStep demoCtx (initTState demoParams) 0).prev -
      ((predict demoCtx.nL demoCtx.Xval demoCtx.Yval
        (batchStep demoCtx (initTState demoParams) 0).params : ℝ) : EReal)) <
      (EPSILON : EReal) := by
    rw [hprev, hacc1, npAbsolute_coe_lt]
    norm_num [EPSILON]
  have hstep2 := batchStep_trigger demoCtx (batchStep demoCtx (initTState demoParams) 0)
    0 hconv1 samplingCond_zero htrig
  have hmodel : (L_layer_model demoRand demoRandB demoInd demoX demoY [1, 1]
      (1 / 100) 2 4).2 = (runEpochs demoCtx 2 (initTState demoParams)).history := rfl
  refine ⟨?_, ?_, ?_⟩
  · rw [hmodel, hrun, hstep2, hstep1]
    rfl
  · rw [hrun, hstep2]
  · rw [hrun, hstep2, hstep1]
    rfl

/-- C7 amended: at every sampling point the Trainer evaluates validation
accuracy and batch cost and checks convergence BEFORE appending: the
triggering sampling point contributes no sample to either history, while a
non-triggering sampling point appends exactly one cost to `history` and one
accuracy to `accuracy_history`. -/
theorem history_append_after_check (P : TrainCtx) (s : TState) (index : ℕ)
    (h1 : s.converged = false) (h2 : samplingCond index) :
    ((npAbsolute (s.prev - ((predict P.nL P.Xval P.Yval s.params : ℝ) : EReal)) <
        (EPSILON : EReal)) →
      (batchStep P s index).history = s.history ∧
      (batchStep P s index).accHistory = s.accHistory) ∧
    (¬ (npAbsolute (s.prev - ((predict P.nL P.Xval P.Yval s.params : ℝ) : EReal)) <
        (EPSILON : EReal)) →
      (batchStep P s index).history = s.history ++ [compute_cost
        (L_model_forward P.nL (matSlice P.Xtr index (min (index + P.bs) P.Xtr.cols))
          s.params false).1
        (matSlice P.Ytr index (min (index + P.bs) P.Ytr.cols))] ∧
      (batchStep P s index).accHistory =
        s.accHistory ++ [predict P.nL P.Xval P.Yval s.params]) := by
  constructor
  · intro h3
    rw [batchStep_trigger P s index h1 h2 h3]
    exact ⟨rfl, rfl⟩
  · intro h3
    rw [batchStep_sample_no_trigger P s index h1 h2 h3]
    exact ⟨rfl, rfl⟩

/-- C7 amended witness: at the initial state (previous accuracy `np.inf`) the
sampling point `index = 0` does not trigger, and appends exactly the batch
cost and the validation accuracy. -/
theorem history_append_after_check_witness :
    (batchStep witCtx (initTState witParams) 0).history = [] ++ [compute_cost
      (L_model_forward witCtx.nL
        (matSlice witCtx.Xtr 0 (min (0 + witCtx.bs) witCtx.Xtr.cols))
        (initTState witParams).params false).1
      (matSlice witCtx.Ytr 0 (min (0 + witCtx.bs) witCtx.Ytr.cols))] ∧
    (batchStep witCtx (initTState witParams) 0).accHistory =
      [] ++ [predict witCtx.nL witCtx.Xval witCtx.Yval (initTState witParams).params] :=
  (history_append_after_check witCtx (initTState witParams) 0 rfl samplingCond_zero).2
    (not_trigger_of_top _)

/-! ## C10: the first sampling point can never trigger convergence -/

/-- C10: the Trainer starts with `prev_val_acc = np.inf` (`⊤`), an infinite
absolute difference is never below `EPSILON`, and a batch iteration taken
from any state with `prev_val_acc = ⊤` never sets `converged` — so the very
first sampling point cannot trigger the `Converged` transition, and
convergence is possible only from the second sampling point onward (after
`prev_val_acc` has been overwritten with a real accuracy). -/
theorem first_sampling_never_converges :
    (∀ p : Params, (initTState p).prev = ⊤ ∧ (initTState p).converged = false) ∧
    (∀ a : ℝ, ¬ npAbsolute ((⊤ : EReal) - (a : EReal)) < (EPSILON : EReal)) ∧
    (∀ (P : TrainCtx) (s : TState) (index : ℕ), s.converged = false → s.prev = ⊤ →
      (batchStep P s index).converged = false) := by
  refine ⟨fun p => ⟨rfl, rfl⟩, not_trigger_of_top, fun P s index h1 h2 => ?_⟩
  by_cases hs : samplingCond index
  · rw [batchStep_sample_no_trigger P s index h1 hs
      (by rw [h2]; exact not_trigger_of_top _)]
    exact h1
  · rw [batchStep_no_sample P s index h1 hs]
    exact h1

/-- C10 witness: from the concrete initial state the first batch iteration
leaves `converged` false. -/
theorem first_sampling_never_converges_witness :
    (batchStep witCtx (initTState witParams) 0).converged = false :=
  first_sampling_never_converges.2.2 witCtx (initTState witParams) 0 rfl rfl
